import Mathlib

/-!
Verification development for the alpha_alert announcement watcher
(`alpha_alert.py`).  The Python source is shallowly embedded: pure text
analysis (classifier, extractor, title parsing) becomes Lean functions on
`String`/`List Char`; the network (HTTP listing/detail calls, the Telegram
send) and the BeautifulSoup HTML parsing are abstracted as oracle fields of
a `World` record; the orchestrator `process_once`/`main_loop` becomes a
state-passing function instrumented with an event log recording the
detail-fetch and notify calls it issues, in order.  Machine-level concerns
(timeouts, sleeps, stdout printing) are dropped; everything else follows the
source line by line.
-/

/- ======================== text utilities ======================== -/

/-- Build a string from a list of characters. -/
def strOf (l : List Char) : String := ⟨l⟩

/-- Whitespace characters recognised by Python `str.strip()` and the regex
class `\s` (ASCII range). -/
def pySpace (c : Char) : Bool :=
  c = ' ' || c = '\t' || c = '\n' || c = '\r' || c = '\x0b' || c = '\x0c'

/-- Python `str.strip(chars)`: drop characters satisfying `p` from both ends. -/
def pyStripBy (p : Char → Bool) (l : List Char) : List Char :=
  ((l.dropWhile p).reverse.dropWhile p).reverse

/-- Python `str.strip()` with the default whitespace set. -/
def pyStripWs (l : List Char) : List Char := pyStripBy pySpace l

/-- ASCII lowering of one character, as Python `str.lower()` does on the
ASCII range (the source only matches ASCII keywords). -/
def lowChar (c : Char) : Char :=
  if 'A' ≤ c && c ≤ 'Z' then Char.ofNat (c.toNat + 32) else c

/-- Python `str.lower()` restricted to ASCII letters. -/
def pyLower (s : String) : String := strOf (s.data.map lowChar)

/-- Boolean test that `needle` is a prefix of `hay`. -/
def seqAt (needle hay : List Char) : Bool :=
  match needle, hay with
  | [], _ => true
  | _ :: _, [] => false
  | n :: ns, h :: hs => n == h && seqAt ns hs

/-- Boolean test that `needle` occurs contiguously inside `hay`; this is the
Python substring test `needle in hay`. -/
def containsSeq (needle : List Char) : List Char → Bool
  | [] => seqAt needle []
  | c :: rest => seqAt needle (c :: rest) || containsSeq needle rest

/-- Python `needle in hay` on strings. -/
def containsSub (hay needle : String) : Bool := containsSeq needle.data hay.data

/- ======================== Python sorted() ======================== -/

/-- Lexicographic (code-point) comparison of character lists: Python string
`<=`. -/
def charsLe : List Char → List Char → Bool
  | [], _ => true
  | _ :: _, [] => false
  | a :: as', b :: bs =>
    if a.toNat < b.toNat then true
    else if b.toNat < a.toNat then false
    else charsLe as' bs

/-- Python `<=` on strings (code-point lexicographic). -/
def pyStrLe (a b : String) : Bool := charsLe a.data b.data

/-- Insert `x` in front of the first element `y` with `le x y`; together with
`sortLe` this is a stable insertion sort, matching Python `sorted`. -/
def insertLe (le : String → String → Bool) (x : String) : List String → List String
  | [] => [x]
  | y :: ys => if le x y then x :: y :: ys else y :: insertLe le x ys

/-- Stable insertion sort with respect to the boolean relation `le`. -/
def sortLe (le : String → String → Bool) : List String → List String
  | [] => []
  | x :: xs => insertLe le x (sortLe le xs)

/-- Python `sorted(set(l))` for strings: distinct elements in ascending
code-point order. -/
def pySortedSet (l : List String) : List String := sortLe pyStrLe l.dedup

/- ======================== listing classifier ======================== -/

/-- Embedding of `looks_like_alpha_listing(title, html)`.  The source feeds
`html` through BeautifulSoup's `get_text`; here `bodyText` stands for that
extracted visible text (the orchestrator supplies it through the `getText`
oracle), so `text = title + " " + bodyText` exactly as in the source, then
the lowercased text is tested against the source's two keyword conditions.
There is no noise-keyword filter in the source. -/
def looks_like_alpha_listing (title : String) (bodyText : String) : Bool :=
  let low := pyLower (title ++ " " ++ bodyText)
  if containsSub low "will be available on binance alpha" then true
  else if containsSub low "binance alpha" &&
      (["list", "listing", "launch", "trading"].any (fun k => containsSub low k)) then true
  else false

example : looks_like_alpha_listing "Foo (FOO) Will Be Available on Binance Alpha" "" = true := by
  decide

example : looks_like_alpha_listing "Binance Will List AlphaCoin" "" = false := by
  decide

example : pySortedSet ["bb", "aa", "bb"] = ["aa", "bb"] := by decide

/- ======================== EVM address regex ======================== -/

/-- Character class `[a-fA-F0-9]` of `EVM_ADDR_RE`. -/
def isHexChar (c : Char) : Bool := c ∈ "abcdefABCDEF0123456789".data

/-- Characters that can appear in a lowered bare EVM address. -/
def hexishChar (c : Char) : Bool := c ∈ "0123456789abcdefx".data

/-- Match of `EVM_ADDR_RE` (`0x` followed by exactly forty hex digits) at the
start of `l`; returns the matched characters. -/
def evmMatchAt (l : List Char) : Option (List Char) :=
  match l with
  | '0' :: 'x' :: rest =>
    if (rest.take 40).length = 40 ∧ (rest.take 40).all isHexChar = true then
      some ('0' :: 'x' :: rest.take 40)
    else none
  | _ => none

/-- Every position at which `EVM_ADDR_RE` matches (overlaps included); used
to state "the text contains exactly one well-formed address". -/
def evmOccurrences : List Char → List (List Char)
  | [] => []
  | c :: rest =>
    match evmMatchAt (c :: rest) with
    | some m => m :: evmOccurrences rest
    | none => evmOccurrences rest

/-- Fuelled worker for `re.findall(EVM_ADDR_RE, text)`: scan left to right,
emit each match and resume after its end (non-overlapping, as `findall`). -/
def evmFindAllAux : Nat → List Char → List (List Char)
  | 0, _ => []
  | _ + 1, [] => []
  | fuel + 1, c :: rest =>
    match evmMatchAt (c :: rest) with
    | some m => m :: evmFindAllAux fuel (rest.drop 41)
    | none => evmFindAllAux fuel rest

/-- Python `EVM_ADDR_RE.findall(text)`. -/
def evmFindAll (l : List Char) : List (List Char) := evmFindAllAux l.length l

/- ======================== explorer URL regexes ======================== -/

/-- Shape shared by the eleven `EXPLORER_PATTERNS` regexes: literal scheme
`https?://`, optional `www.`, a literal domain followed by `/`, an optional
alternation of literal path segments each followed by `/`, then a greedy run
of characters from a class with a lower (and possibly upper) length bound. -/
structure ExplorerPat where
  domain : List Char
  segs : List (List Char)
  cls : Char → Bool
  minLen : Nat
  maxLen : Option Nat

/-- Drop the literal `pre` from the front of `l`, or fail. -/
def dropPre : List Char → List Char → Option (List Char)
  | [], l => some l
  | _ :: _, [] => none
  | p :: ps, c :: cs => if c = p then dropPre ps cs else none

/-- Length of the maximal leading run of characters satisfying `cls`. -/
def classRunLen (cls : Char → Bool) : List Char → Nat
  | [] => 0
  | c :: rest => if cls c then classRunLen cls rest + 1 else 0

/-- First alternative of `segs` (each followed by `/`) matching a prefix of
`l`; the alternatives of the source patterns differ in their first letter,
so this first-match rule coincides with regex alternation. -/
def segAlt (segs : List (List Char)) (l : List Char) : Option (List Char) :=
  match segs with
  | [] => none
  | s :: rest =>
    match dropPre (s ++ ['/']) l with
    | some r => some r
    | none => segAlt rest l

/-- Path-segment component: patterns with no segment alternation
(`tonviewer`) consume nothing here. -/
def segPart (p : ExplorerPat) (l : List Char) : Option (List Char) :=
  match p.segs with
  | [] => some l
  | _ :: _ => segAlt p.segs l

/-- Scheme component `https?://`: after the literal `http`, an optional `s`
followed by `://` (the two branches are mutually exclusive on the next
character, so first-match equals regex backtracking). -/
def schemeDrop (l : List Char) : Option (List Char) :=
  match dropPre "s://".data l with
  | some r => some r
  | none => dropPre "://".data l

/-- Optional `(?:www\.)?` component: consume `www.` when present (no source
domain starts with `w`, so this is equivalent to the regex's optional
group). -/
def wwwDrop (l : List Char) : List Char :=
  match dropPre "www.".data l with
  | some r => r
  | none => l

/-- Match one explorer pattern at the start of `l`; returns the remainder
after the match.  The greedy character run takes the maximal class run,
capped by `maxLen`, and fails below `minLen` — exactly the backtracking-free
behaviour of the source regexes, whose components are mutually exclusive. -/
def expMatchAt (p : ExplorerPat) (l : List Char) : Option (List Char) :=
  (dropPre "http".data l).bind fun l1 =>
    (schemeDrop l1).bind fun l2 =>
      (dropPre (p.domain ++ ['/']) (wwwDrop l2)).bind fun l4 =>
        (segPart p l4).bind fun l5 =>
          let r := classRunLen p.cls l5
          let m := match p.maxLen with
                   | some mx => min r mx
                   | none => r
          if p.minLen ≤ m then some (l5.drop m) else none

/-- Fuelled worker for `re.findall(pat, html)` over one explorer pattern. -/
def expFindAllAux (p : ExplorerPat) : Nat → List Char → List (List Char)
  | 0, _ => []
  | _ + 1, [] => []
  | fuel + 1, c :: rest =>
    match expMatchAt p (c :: rest) with
    | some rem =>
      ((c :: rest).take ((c :: rest).length - rem.length)) ::
        expFindAllAux p fuel ((c :: rest).drop ((c :: rest).length - rem.length))
    | none => expFindAllAux p fuel rest

/-- Python `re.findall(pat, html)` for one explorer pattern. -/
def expFindAll (p : ExplorerPat) (l : List Char) : List (List Char) :=
  expFindAllAux p l.length l

/-- Character class `[0-9a-zA-Z]`. -/
def alnumCls (c : Char) : Bool :=
  c ∈ "0123456789abcdefghijklmnopqrstuvwxyzABCDEFGHIJKLMNOPQRSTUVWXYZ".data

/-- Base58 class `[1-9A-HJ-NP-Za-km-z]` of the solscan pattern. -/
def base58Cls (c : Char) : Bool :=
  c ∈ "123456789ABCDEFGHJKLMNPQRSTUVWXYZabcdefghijkmnopqrstuvwxyz".data

/-- Character class `[0-9A-Za-z_-]` of the TON patterns. -/
def tonCls (c : Char) : Bool := alnumCls c || c = '_' || c = '-'

/-- Character class `[0-9a-f]` of the Sui patterns. -/
def hexLowerCls (c : Char) : Bool := c ∈ "0123456789abcdef".data

/-- The eleven `EXPLORER_PATTERNS` of the source, in order. -/
def EXPLORER_PATTERNS : List ExplorerPat :=
  [⟨"etherscan.io".data, ["token".data, "address".data], alnumCls, 10, none⟩,
   ⟨"bscscan.com".data, ["token".data, "address".data], alnumCls, 10, none⟩,
   ⟨"basescan.org".data, ["token".data, "address".data], alnumCls, 10, none⟩,
   ⟨"arbiscan.io".data, ["token".data, "address".data], alnumCls, 10, none⟩,
   ⟨"polygonscan.com".data, ["token".data, "address".data], alnumCls, 10, none⟩,
   ⟨"optimistic.etherscan.io".data, ["token".data, "address".data], alnumCls, 10, none⟩,
   ⟨"solscan.io".data, ["token".data], base58Cls, 32, some 44⟩,
   ⟨"tonviewer.com".data, [], tonCls, 20, none⟩,
   ⟨"tonscan.org".data, ["token".data, "address".data], tonCls, 20, none⟩,
   ⟨"suiscan.xyz".data, ["token".data, "object".data], hexLowerCls, 32, none⟩,
   ⟨"explorer.sui.io".data, ["object".data], hexLowerCls, 32, none⟩]

/-- The loop `for pat in EXPLORER_PATTERNS: explorers += re.findall(pat, html)`. -/
def explorerFinds (html : String) : List (List Char) :=
  (EXPLORER_PATTERNS.map (fun p => expFindAll p html.data)).flatten

example :
    explorerFinds "x https://etherscan.io/token/0123456789ab y"
      = ["https://etherscan.io/token/0123456789ab".data] := by decide

example : explorerFinds "see 0xAbcdefAbcdefAbcdefAbcdefAbcdefAbcdefAbcd" = [] := by decide

example :
    evmFindAll "see 0xAbcdefAbcdefAbcdefAbcdefAbcdefAbcdefAbcd!".data
      = ["0xAbcdefAbcdefAbcdefAbcdefAbcdefAbcdefAbcd".data] := by decide

/- ======================== extractor ======================== -/

/-- Twitter / X domains tested against anchor hrefs. -/
def TW_DOMAINS : List String := ["twitter.com", "x.com"]

/-- Chain selection of the source's inner `tag` helper: the lowercased
string is tested against explorer-domain substrings in order, defaulting to
`"EVM"`. -/
def tagChainOf (s : String) : String :=
  let u := pyLower s
  if containsSub u "etherscan" then "ETH"
  else if containsSub u "bscscan" then "BNB"
  else if containsSub u "basescan" then "Base"
  else if containsSub u "arbiscan" then "Arbitrum"
  else if containsSub u "polygonscan" then "Polygon"
  else if containsSub u "optimistic.etherscan" then "Optimism"
  else if containsSub u "solscan" then "Solana"
  else if containsSub u "tonviewer" || containsSub u "tonscan" then "TON"
  else if containsSub u "suiscan" || containsSub u "explorer.sui.io" then "Sui"
  else "EVM"

/-- The source's `tag(addr_or_url)`: `f"{chain}: {addr_or_url}"`. -/
def tag (s : String) : String := tagChainOf s ++ ": " ++ s

/-- Embedding of `extract_handles_and_contracts(html)`.  BeautifulSoup's
anchor scan is abstracted: `anchorHrefs` is the list of `href` values of the
`<a>` tags of `html`, in document order; everything after that first loop
follows the source.  Handles: hrefs containing a Twitter/X domain,
deduplicated, sorted, first three.  Explorers: concatenated `findall` of the
eleven patterns over the raw html, deduplicated and sorted.  Contracts:
tagged explorer links (first eight); if there are none, the tagged EVM
addresses (first five, sorted set). -/
def extract_handles_and_contracts (anchorHrefs : List String) (html : String) :
    List String × List String :=
  let handles :=
    (pySortedSet (anchorHrefs.filter
      (fun href => TW_DOMAINS.any (fun dom => containsSub href dom)))).take 3
  let explorers := pySortedSet ((explorerFinds html).map strOf)
  let evm_addrs := pySortedSet ((evmFindAll html.data).map strOf)
  let contracts := (explorers.take 8).map tag
  let contracts :=
    if contracts = [] && evm_addrs ≠ [] then (evm_addrs.take 5).map tag
    else contracts
  (handles, contracts)

example :
    (extract_handles_and_contracts []
      "see 0xAbcdefAbcdefAbcdefAbcdefAbcdefAbcdefAbcd!").2
      = ["EVM: 0xAbcdefAbcdefAbcdefAbcdefAbcdefAbcdefAbcd"] := by decide

/- ======================== title parsing ======================== -/

/-- Character class `[A-Z0-9]` of the ticker regex. -/
def tickerCls (c : Char) : Bool := c ∈ "ABCDEFGHIJKLMNOPQRSTUVWXYZ0123456789".data

/-- Match of `\(([A-Z0-9]{2,10})\)` at the start of `l`: an opening
parenthesis, a maximal class run of length between two and ten, then a
closing parenthesis (the run is maximal because `)` is outside the class, so
greedy backtracking can only close at the end of the run).  Returns the
captured group. -/
def tickerMatchAt (l : List Char) : Option (List Char) :=
  match l with
  | '(' :: rest =>
    let r := classRunLen tickerCls rest
    if 2 ≤ r && r ≤ 10 then
      match rest.drop r with
      | ')' :: _ => some (rest.take r)
      | _ => none
    else none
  | _ => none

/-- Leftmost match of the ticker regex: `re.search` returning the start
index and the captured group. -/
def tickerSearch : List Char → Option (Nat × List Char)
  | [] => none
  | c :: rest =>
    match tickerMatchAt (c :: rest) with
    | some tk => some (0, tk)
    | none =>
      match tickerSearch rest with
      | some (i, tk) => some (i + 1, tk)
      | none => none

/-- Case-insensitive literal match (the boilerplate regex is compiled with
`re.I`); `lit` is given lowercased.  Returns the remainder. -/
def caselessDrop (lit : List Char) (l : List Char) : Option (List Char) :=
  match lit, l with
  | [], rest => some rest
  | _ :: _, [] => none
  | a :: as', c :: cs => if lowChar c = a then caselessDrop as' cs else none

/-- Regex `\s+`: require at least one whitespace character and consume the
maximal run. -/
def wsDrop1 (l : List Char) : Option (List Char) :=
  match l with
  | c :: rest => if pySpace c then some (rest.dropWhile pySpace) else none
  | [] => none

/-- Alternative `Binance\s+Will\s+List` of the boilerplate regex. -/
def boilerAlt1 (l : List Char) : Option (List Char) :=
  match caselessDrop "binance".data l with
  | none => none
  | some l1 =>
    match wsDrop1 l1 with
    | none => none
    | some l2 =>
      match caselessDrop "will".data l2 with
      | none => none
      | some l3 =>
        match wsDrop1 l3 with
        | none => none
        | some l4 => caselessDrop "list".data l4

/-- Alternative `Binance\s+Lists`. -/
def boilerAlt2 (l : List Char) : Option (List Char) :=
  match caselessDrop "binance".data l with
  | none => none
  | some l1 =>
    match wsDrop1 l1 with
    | none => none
    | some l2 => caselessDrop "lists".data l2

/-- Alternative `New\s+Cryptocurrency\s+Listing:?` (optional colon). -/
def boilerAlt3 (l : List Char) : Option (List Char) :=
  match caselessDrop "new".data l with
  | none => none
  | some l1 =>
    match wsDrop1 l1 with
    | none => none
    | some l2 =>
      match caselessDrop "cryptocurrency".data l2 with
      | none => none
      | some l3 =>
        match wsDrop1 l3 with
        | none => none
        | some l4 =>
          match caselessDrop "listing".data l4 with
          | none => none
          | some l5 =>
            match l5 with
            | ':' :: rest => some rest
            | _ => some l5

/-- The anchored substitution
`re.sub(r"^(Binance\s+Will\s+List|Binance\s+Lists|New\s+Cryptocurrency\s+Listing:?)\s+", "", before, flags=re.I)`:
try each alternative in order, each followed by `\s+`; on success the match
is removed, otherwise the text is unchanged. -/
def stripBoilerplate (l : List Char) : List Char :=
  match (match boilerAlt1 l with
         | some r => wsDrop1 r
         | none => none) with
  | some r => r
  | none =>
    match (match boilerAlt2 l with
           | some r => wsDrop1 r
           | none => none) with
    | some r => r
    | none =>
      match (match boilerAlt3 l with
             | some r => wsDrop1 r
             | none => none) with
      | some r => r
      | none => l

/-- Embedding of `parse_title_for_token(title)`: extract the parenthesised
ticker; the part before it, whitespace-stripped, boilerplate-stripped and
`.strip(" -:|")`-ed, is the token name; with no ticker match, the whole
title is the name. -/
def parse_title_for_token (title : String) : String × String :=
  match tickerSearch title.data with
  | none => (title, "")
  | some (i, tk) =>
    let before := pyStripWs (title.data.take i)
    let before2 := stripBoilerplate before
    (strOf (pyStripBy (fun c => c = ' ' || c = '-' || c = ':' || c = '|') before2),
     strOf tk)

example : parse_title_for_token "Binance Will List ExampleToken (EXM)" = ("ExampleToken", "EXM") := by
  decide

example : parse_title_for_token "Fee Adjustment Notice" = ("Fee Adjustment Notice", "") := by
  decide

/- ======================== message formatting ======================== -/

/-- Sort key of `make_alert`: index of the first chain name of the priority
tuple that prefixes the contract entry, or the tuple length. -/
def sort_key (s : String) : Nat :=
  let priority := ["ETH", "BNB", "Solana", "Base", "Sui", "TON"]
  ((priority.findIdx? (fun p => (p ++ ":").isPrefixOf s)).getD priority.length)

/-- Embedding of `make_alert`: contracts are stably sorted by chain
priority, the first handle is linked, contracts are space-joined (or "TBA"),
and the HTML message is assembled as in the source f-string. -/
def make_alert (token_name ticker url : String) (handles contracts : List String) :
    String :=
  let contracts2 := sortLe (fun a b => Nat.ble (sort_key a) (sort_key b)) contracts
  let h := handles.headD ""
  let handle_txt := if h = "" then h else "<a href=\"" ++ h ++ "\">" ++ h ++ "</a>"
  let ctxt := if contracts2 = [] then "TBA" else " ".intercalate contracts2
  "🚨 Alpha listing: <b>" ++ token_name ++ "</b> (" ++ ticker ++ ") — " ++
    "<a href=\"" ++ url ++ "\">Announcement</a> | X: " ++ handle_txt ++
    " | Contract(s): " ++ ctxt

/- ======================== deduplication store ======================== -/

/-- Content of `SEEN_FILE` as the load path sees it: absent, unparseable, or
a JSON array of strings. -/
inductive FileState where
  | missing
  | corrupt
  | arr (l : List String)
deriving DecidableEq

/-- Embedding of `load_seen()`: a missing file or a parse failure degrades
to the empty set; a JSON array becomes a set (here a duplicate-free list
standing for `set(...)`). -/
def load_seen : FileState → List String
  | .missing => []
  | .corrupt => []
  | .arr l => l.dedup

/-- Embedding of `save_seen(seen)`: the file is rewritten with
`json.dumps(sorted(seen))`; `seen` plays the Python set, so the stored array
is its members in ascending order. -/
def save_seen (seen : List String) : FileState :=
  .arr (pySortedSet seen)

/-- Python `seen.add(code)` on the list-as-set representation. -/
def addSeen (code : String) (seen : List String) : List String :=
  if code ∈ seen then seen else code :: seen

/- ======================== source adapter ======================== -/

/-- Binance CMS catalog id used by the source. -/
def CATALOG_ID : Nat := 48

/-- Page size used by the source. -/
def PAGE_SIZE : Nat := 30

/-- The query-parameter record built by `fetch_listing_articles`. -/
structure ListParams where
  catalogId : Nat
  pageNo : Nat
  pageSize : Nat
  type : Nat
deriving DecidableEq

/-- One article record of the listing response; `code`, `articleCode` and
`title` model `it.get(...)` with `none` for an absent key or JSON null. -/
structure Article where
  code : Option String
  articleCode : Option String
  title : Option String
deriving DecidableEq

/-- The `data` object of the listing response; `articles` is `none` when the
key is absent or null.  `none` and the empty list both yield `[]` through
the source's `... or []`. -/
structure ListData where
  articles : Option (List Article)
deriving DecidableEq

/-- A parsed listing response document. -/
structure ListResp where
  data : Option ListData
deriving DecidableEq

/-- The source's `data.get("data", {}).get("articles", []) or []`. -/
def articlesOf (r : ListResp) : List Article :=
  ((r.data.getD ⟨none⟩).articles).getD []

/-- Embedding of `fetch_listing_articles(page_no)`.  The transport
(`req_json`: HTTP GET, `raise_for_status`, JSON decode) is the oracle `net`,
which returns the parsed document or a transport error.  The first component
records the request shapes issued, in order: the source builds exactly one
`params` dict and performs exactly one request — there is no variant list. -/
def fetch_listing_articles (net : ListParams → Except String ListResp)
    (pageNo : Nat) : List ListParams × Except String (List Article) :=
  let params : ListParams := ⟨CATALOG_ID, pageNo, PAGE_SIZE, 1⟩
  ([params], (net params).map articlesOf)

/-- The `data` object of a detail response. -/
structure DetailData where
  content : Option String
deriving DecidableEq

/-- A parsed detail response document. -/
structure DetailResp where
  data : Option DetailData
deriving DecidableEq

/- ======================== orchestrator ======================== -/

/-- External effects of one cycle.  `listNet` is the listing transport;
`detailNet` the detail transport keyed by article code; `notifySend` the
Telegram `tg_send` (an error models a raised exception); `getText` stands for
BeautifulSoup `get_text` on a body; `anchors` for the href values
BeautifulSoup finds in a body. -/
structure World where
  listNet : ListParams → Except String ListResp
  detailNet : String → Except String DetailResp
  notifySend : String → Except String Unit
  getText : String → String
  anchors : String → List String

/-- Embedding of `fetch_article_detail(article_code)`: one request through
the detail transport, then `data.get("data", {}) or {}`. -/
def fetch_article_detail (w : World) (article_code : String) :
    Except String DetailData :=
  (w.detailNet article_code).map (fun r => r.data.getD ⟨none⟩)

/-- The source's `it.get("code") or it.get("articleCode")` followed by the
`if not code` guard: the empty string stands for a falsy code. -/
def pickCode (it : Article) : String :=
  if it.code.getD "" ≠ "" then it.code.getD "" else it.articleCode.getD ""

/-- The source's `(it.get("title") or "").strip()`. -/
def articleTitle (it : Article) : String := strOf (pyStripWs (it.title.getD "").data)

/-- Announcement URL built by `process_once`. -/
def articleUrl (code : String) : String :=
  "https://www.binance.com/en/support/announcement/detail/" ++ code

/-- The message `process_once` builds for one article:
`make_alert(token_name or title, ticker or "", url, handles, contracts)`. -/
def buildMsg (w : World) (it : Article) (d : DetailData) : String :=
  make_alert
    (if (parse_title_for_token (articleTitle it)).1 = "" then articleTitle it
     else (parse_title_for_token (articleTitle it)).1)
    (parse_title_for_token (articleTitle it)).2
    (articleUrl (pickCode it))
    (extract_handles_and_contracts (w.anchors (d.content.getD ""))
      (d.content.getD "")).1
    (extract_handles_and_contracts (w.anchors (d.content.getD ""))
      (d.content.getD "")).2

/-- Entries of the instrumentation log: each detail fetch issued and each
notify attempt (with its outcome), in program order. -/
inductive Event where
  | fetchDetail (code : String)
  | notify (code : String) (ok : Bool)
deriving DecidableEq

/-- Decidable equality for `Except`, needed to evaluate cycle results on
concrete worlds. -/
instance {ε α : Type} [DecidableEq ε] [DecidableEq α] : DecidableEq (Except ε α) :=
  fun a b =>
    match a, b with
    | .ok x, .ok y =>
      if h : x = y then .isTrue (by rw [h]) else .isFalse (by simp [h])
    | .error x, .error y =>
      if h : x = y then .isTrue (by rw [h]) else .isFalse (by simp [h])
    | .ok _, .error _ => .isFalse (by simp)
    | .error _, .ok _ => .isFalse (by simp)

/-- Result of one `process_once` call: the seen set as it stands when the
call returns or raises (the Python set is mutated in place, so the caller
observes the additions even on an exception), the sent count or the raised
error, and the event log. -/
structure CycleOut where
  seen : List String
  res : Except String Nat
  log : List Event
deriving DecidableEq

/-- Count of notify attempts for a given article code in an event log. -/
def notifyCount (id : String) (log : List Event) : Nat :=
  log.countP (fun e =>
    match e with
    | .notify c _ => decide (c = id)
    | _ => false)

/-- The candidate loop of `process_once`.  Faithful to the source: articles
without a code are skipped; codes already seen are skipped before any detail
fetch; a detail-fetch error or a notify error propagates immediately (there
is no per-candidate exception handling in the source), leaving the seen set
as it stood; after a successful notify the code is added to the seen set and
the count incremented. -/
def processLoop (w : World) : List Article → List String → Nat → CycleOut
  | [], seen, sent => ⟨seen, .ok sent, []⟩
  | it :: rest, seen, sent =>
    if pickCode it = "" then processLoop w rest seen sent
    else if pickCode it ∈ seen then processLoop w rest seen sent
    else
      match fetch_article_detail w (pickCode it) with
      | .error e => ⟨seen, .error e, [Event.fetchDetail (pickCode it)]⟩
      | .ok d =>
        if looks_like_alpha_listing (articleTitle it) (w.getText (d.content.getD "")) then
          match w.notifySend (buildMsg w it d) with
          | .error e =>
            ⟨seen, .error e,
             [Event.fetchDetail (pickCode it), Event.notify (pickCode it) false]⟩
          | .ok _ =>
            let out := processLoop w rest (addSeen (pickCode it) seen) (sent + 1)
            ⟨out.seen, out.res,
             Event.fetchDetail (pickCode it) :: Event.notify (pickCode it) true :: out.log⟩
        else
          let out := processLoop w rest seen sent
          ⟨out.seen, out.res, Event.fetchDetail (pickCode it) :: out.log⟩

/-- Embedding of `process_once(seen)`: fetch the listing (an error there
propagates before any candidate is processed), then run the candidate
loop. -/
def process_once (w : World) (seen : List String) : CycleOut :=
  match (fetch_listing_articles w.listNet 1).2 with
  | .error e => ⟨seen, .error e, []⟩
  | .ok articles => processLoop w articles seen 0

/-- One iteration of the `main_loop` body: run `process_once` under the
`try`; on success with a positive count, `save_seen(seen)` is called (second
component records the written file); on a zero count or an exception nothing
is persisted, and the (possibly mutated) set carries over to the next
iteration. -/
def main_loop_step (w : World) (seen : List String) :
    List String × Option FileState :=
  let out := process_once w seen
  match out.res with
  | .ok sent => if sent ≠ 0 then (out.seen, some (save_seen out.seen)) else (out.seen, none)
  | .error _ => (out.seen, none)

/- ======================== spec-modelled vocabulary ======================== -/

/-- Modelled from the spec: the noise vocabulary of the companion noise
filter described in the specification ("promotion", "fee", "update",
"amendment", "contest", "campaign").  No such filter exists in the source;
this list is only used to state the specification's claim about it. -/
def specNoiseKeywords : List String :=
  ["promotion", "fee", "update", "amendment", "contest", "campaign"]

/- ======================== concrete scenarios ======================== -/

/-- A world whose single candidate is a fresh alpha listing and in which
every external call succeeds. -/
def wGood : World where
  listNet := fun _ =>
    .ok ⟨some ⟨some [⟨some "A1", none, some "Foo (FOO) Will List on Binance Alpha"⟩]⟩⟩
  detailNet := fun _ => .ok ⟨some ⟨some "<p>body</p>"⟩⟩
  notifySend := fun _ => .ok ()
  getText := fun _ => ""
  anchors := fun _ => []

/-- A world with three candidates: `A1` notifies successfully, the detail
fetch for `A2` raises, and `A3` would also be a successful alpha listing if
it were ever reached. -/
def wMid : World where
  listNet := fun _ =>
    .ok ⟨some ⟨some
      [⟨some "A1", none, some "Foo (FOO) Will List on Binance Alpha"⟩,
       ⟨some "A2", none, some "Bar (BAR) Will List on Binance Alpha"⟩,
       ⟨some "A3", none, some "Baz (BAZ) Will List on Binance Alpha"⟩]⟩⟩
  detailNet := fun c => if c = "A2" then .error "detail down" else .ok ⟨some ⟨some "<p>body</p>"⟩⟩
  notifySend := fun _ => .ok ()
  getText := fun _ => ""
  anchors := fun _ => []

/-- A world whose single fresh alpha-listing candidate fails at the notify
step. -/
def wNotifyFail : World where
  listNet := fun _ =>
    .ok ⟨some ⟨some [⟨some "B1", none, some "Foo (FOO) Will List on Binance Alpha"⟩]⟩⟩
  detailNet := fun _ => .ok ⟨some ⟨some "<p>body</p>"⟩⟩
  notifySend := fun _ => .error "telegram 500"
  getText := fun _ => ""
  anchors := fun _ => []

/-- A listing transport that rejects the one request shape the source
builds and would accept any other shape. -/
def oneShapeNet : ListParams → Except String ListResp :=
  fun p => if p.pageSize = PAGE_SIZE then .error "blocked" else .ok ⟨some ⟨some []⟩⟩

/-- A listing transport that always answers with a well-formed document
containing zero articles. -/
def emptyOkNet : ListParams → Except String ListResp :=
  fun _ => .ok ⟨some ⟨some []⟩⟩

/-- Forty `a` digits behind `0x`: the lexicographically smaller address of
the order counterexample. -/
def evmAddrA : String := "0xaaaaaaaaaaaaaaaaaaaaaaaaaaaaaaaaaaaaaaaa"

/-- Forty `b` digits behind `0x`: the lexicographically larger address. -/
def evmAddrB : String := "0xbbbbbbbbbbbbbbbbbbbbbbbbbbbbbbbbbbbbbbbb"

/-- Input text in which address B appears strictly before address A. -/
def orderHtml : String := evmAddrB ++ " then " ++ evmAddrA

/-- Input text with exactly one well-formed EVM address and no explorer
URL. -/
def singleAddrHtml : String :=
  "contract: 0x00112233445566778899aAbBcCdDeEfF00112233 ."

/-- Input text containing one etherscan token URL and one bare EVM
address. -/
def explorerHtml : String :=
  "https://etherscan.io/token/0x00112233445566778899aAbBcCdDeEfF00112233 and 0x00112233445566778899aAbBcCdDeEfF00112233"

example :
    process_once wGood [] =
      ⟨["A1"], .ok 1, [Event.fetchDetail "A1", Event.notify "A1" true]⟩ := by decide

example :
    (process_once wMid []).res = .error "detail down" ∧
    (process_once wMid []).seen = ["A1"] := by decide

example :
    explorerFinds explorerHtml =
      ["https://etherscan.io/token/0x00112233445566778899aAbBcCdDeEfF00112233".data] := by
  decide

/- ======================== substring lemmas ======================== -/

theorem seqAt_iff (n h : List Char) : seqAt n h = true ↔ n <+: h := by
  induction n generalizing h with
  | nil => simp [seqAt]
  | cons a as ih =>
    cases h with
    | nil => simp [seqAt]
    | cons c hs => simp [seqAt, ih, List.cons_prefix_cons]

theorem containsSeq_iff (n h : List Char) : containsSeq n h = true ↔ n <:+: h := by
  induction h with
  | nil =>
    simp only [containsSeq, seqAt_iff, List.infix_nil, List.prefix_nil]
  | cons c hs ih =>
    simp only [containsSeq, Bool.or_eq_true, seqAt_iff, ih, List.infix_cons_iff]

/-- Substring containment is transitive through an intermediate literal. -/
theorem containsSub_of_seq (s a b : String)
    (hb : containsSub s b = true) (hab : containsSeq a.data b.data = true) :
    containsSub s a = true := by
  rw [containsSub, containsSeq_iff] at hb ⊢
  rw [containsSeq_iff] at hab
  exact hab.trans hb

/-- Mapping a function over both strings preserves substring containment. -/
theorem containsSeq_map (f : Char → Char) (n h : List Char)
    (hn : containsSeq n h = true) :
    containsSeq (n.map f) (h.map f) = true := by
  rw [containsSeq_iff] at hn ⊢
  obtain ⟨s, t, rfl⟩ := hn
  exact ⟨s.map f, t.map f, by simp⟩

/-- A needle with a character outside the hay's character set cannot occur
in the hay. -/
theorem containsSeq_eq_false (p : Char → Bool) (n h : List Char) (c : Char)
    (hc : c ∈ n) (hcp : p c = false) (hall : ∀ x ∈ h, p x = true) :
    containsSeq n h = false := by
  by_contra hcon
  rw [Bool.not_eq_false, containsSeq_iff] at hcon
  have := hall c (hcon.subset hc)
  rw [hcp] at this
  exact Bool.false_ne_true this

/- ======================== sorting lemmas ======================== -/

theorem charsLe_total (a b : List Char) : charsLe a b = true ∨ charsLe b a = true := by
  induction a generalizing b with
  | nil => left; rfl
  | cons x xs ih =>
    cases b with
    | nil => right; rfl
    | cons y ys =>
      rcases Nat.lt_trichotomy x.toNat y.toNat with h | h | h
      · left; simp [charsLe, h]
      · have h2 : ¬ x.toNat < y.toNat := by omega
        have h3 : ¬ y.toNat < x.toNat := by omega
        rcases ih ys with hxy | hyx
        · left; simp [charsLe, h2, h3, hxy]
        · right; simp [charsLe, h2, h3, hyx]
      · right; simp [charsLe, h]

theorem charsLe_trans (a b c : List Char)
    (hab : charsLe a b = true) (hbc : charsLe b c = true) : charsLe a c = true := by
  induction a generalizing b c with
  | nil => rfl
  | cons x xs ih =>
    cases b with
    | nil => simp [charsLe] at hab
    | cons y ys =>
      cases c with
      | nil => simp [charsLe] at hbc
      | cons z zs =>
        by_cases h1 : x.toNat < y.toNat
        · have h1n : ¬ y.toNat < x.toNat := by omega
          by_cases h2 : y.toNat < z.toNat
          · have : x.toNat < z.toNat := by omega
            simp [charsLe, this]
          · by_cases h3 : z.toNat < y.toNat
            · simp [charsLe, h2, h3] at hbc
            · have : x.toNat < z.toNat := by omega
              simp [charsLe, this]
        · by_cases h1b : y.toNat < x.toNat
          · simp [charsLe, h1, h1b] at hab
          · have hxy : x.toNat = y.toNat := by omega
            simp only [charsLe, h1, h1b, if_false] at hab
            by_cases h2 : y.toNat < z.toNat
            · have : x.toNat < z.toNat := by omega
              simp [charsLe, this]
            · by_cases h3 : z.toNat < y.toNat
              · simp [charsLe, h2, h3] at hbc
              · rw [charsLe, if_neg h2, if_neg h3] at hbc
                have h4 : ¬ x.toNat < z.toNat := by omega
                have h5 : ¬ z.toNat < x.toNat := by omega
                rw [charsLe, if_neg h4, if_neg h5]
                exact ih ys zs hab hbc

theorem pyStrLe_total (a b : String) : pyStrLe a b = true ∨ pyStrLe b a = true :=
  charsLe_total a.data b.data

theorem pyStrLe_trans (a b c : String)
    (hab : pyStrLe a b = true) (hbc : pyStrLe b c = true) : pyStrLe a c = true :=
  charsLe_trans a.data b.data c.data hab hbc

theorem mem_insertLe (le : String → String → Bool) (x a : String) (l : List String) :
    a ∈ insertLe le x l ↔ a = x ∨ a ∈ l := by
  induction l with
  | nil => simp [insertLe]
  | cons y ys ih =>
    by_cases h : le x y = true
    · simp [insertLe, h]
    · simp only [insertLe, if_neg h, List.mem_cons, ih]
      tauto

theorem mem_sortLe (le : String → String → Bool) (a : String) (l : List String) :
    a ∈ sortLe le l ↔ a ∈ l := by
  induction l with
  | nil => simp [sortLe]
  | cons x xs ih => simp [sortLe, mem_insertLe, ih]

theorem nodup_insertLe (le : String → String → Bool) (x : String) (l : List String)
    (hx : x ∉ l) (hl : l.Nodup) : (insertLe le x l).Nodup := by
  induction l with
  | nil => simp [insertLe]
  | cons y ys ih =>
    rw [List.nodup_cons] at hl
    by_cases h : le x y = true
    · rw [insertLe, if_pos h, List.nodup_cons, List.nodup_cons]
      refine ⟨?_, hl⟩
      intro hm
      exact hx hm
    · rw [insertLe, if_neg h, List.nodup_cons]
      constructor
      · intro hm
        rw [mem_insertLe] at hm
        rcases hm with rfl | hm
        · exact hx (List.mem_cons_self _ _)
        · exact hl.1 hm
      · exact ih (fun hm => hx (List.mem_cons_of_mem _ hm)) hl.2

theorem nodup_sortLe (le : String → String → Bool) (l : List String)
    (hl : l.Nodup) : (sortLe le l).Nodup := by
  induction l with
  | nil => simp [sortLe]
  | cons x xs ih =>
    rw [List.nodup_cons] at hl
    refine nodup_insertLe le x (sortLe le xs) ?_ (ih hl.2)
    rw [mem_sortLe]
    exact hl.1

theorem pairwise_insertLe (x : String) (l : List String)
    (hl : l.Pairwise (fun a b => pyStrLe a b = true)) :
    (insertLe pyStrLe x l).Pairwise (fun a b => pyStrLe a b = true) := by
  induction l with
  | nil => simp [insertLe]
  | cons y ys ih =>
    rw [List.pairwise_cons] at hl
    by_cases h : pyStrLe x y = true
    · rw [insertLe, if_pos h, List.pairwise_cons]
      refine ⟨?_, List.pairwise_cons.mpr hl⟩
      intro b hb
      rcases List.mem_cons.mp hb with rfl | hb
      · exact h
      · exact pyStrLe_trans x y b h (hl.1 b hb)
    · rw [insertLe, if_neg h, List.pairwise_cons]
      constructor
      · intro b hb
        rw [mem_insertLe] at hb
        rcases hb with hbx | hb
        · rcases pyStrLe_total x y with hxy | hyx
          · exact absurd hxy h
          · rw [hbx]; exact hyx
        · exact hl.1 b hb
      · exact ih hl.2

theorem pairwise_sortLe (l : List String) :
    (sortLe pyStrLe l).Pairwise (fun a b => pyStrLe a b = true) := by
  induction l with
  | nil => simp [sortLe]
  | cons x xs ih => exact pairwise_insertLe x (sortLe pyStrLe xs) ih

theorem mem_pySortedSet (a : String) (l : List String) :
    a ∈ pySortedSet l ↔ a ∈ l := by
  rw [pySortedSet, mem_sortLe, List.mem_dedup]

theorem nodup_pySortedSet (l : List String) : (pySortedSet l).Nodup :=
  nodup_sortLe pyStrLe l.dedup (List.nodup_dedup l)

theorem sorted_pySortedSet (l : List String) :
    (pySortedSet l).Pairwise (fun a b => pyStrLe a b = true) :=
  pairwise_sortLe l.dedup

/- ======================== EVM regex lemmas ======================== -/

theorem evmMatchAt_shape (l m : List Char) (h : evmMatchAt l = some m) :
    ∃ ds, m = '0' :: 'x' :: ds ∧ ds.length = 40 ∧ ds.all isHexChar = true := by
  unfold evmMatchAt at h
  split at h
  · split at h
    · rename_i rest hg
      exact ⟨rest.take 40, (Option.some.injEq _ _).mp h ▸ rfl, hg.1, hg.2⟩
    · exact absurd h (by simp)
  · exact absurd h (by simp)

theorem evmOccurrences_shape (l m : List Char) (h : m ∈ evmOccurrences l) :
    ∃ ds, m = '0' :: 'x' :: ds ∧ ds.length = 40 ∧ ds.all isHexChar = true := by
  induction l with
  | nil => simp [evmOccurrences] at h
  | cons c rest ih =>
    rw [evmOccurrences] at h
    cases hm : evmMatchAt (c :: rest) with
    | some mm =>
      rw [hm] at h
      rcases List.mem_cons.mp h with rfl | h2
      · exact evmMatchAt_shape _ _ hm
      · exact ih h2
    | none =>
      rw [hm] at h
      exact ih h

theorem evmFindAllAux_of_occ_nil (fuel : Nat) (l : List Char)
    (h : evmOccurrences l = []) : evmFindAllAux fuel l = [] := by
  induction fuel generalizing l with
  | zero => rfl
  | succ fuel ih =>
    cases l with
    | nil => rfl
    | cons c rest =>
      rw [evmOccurrences] at h
      cases hm : evmMatchAt (c :: rest) with
      | some mm => rw [hm] at h; exact absurd h (by simp)
      | none =>
        rw [hm] at h
        rw [evmFindAllAux, hm]
        exact ih rest h

theorem evmOccurrences_drop_nil (l : List Char) (k : Nat)
    (h : evmOccurrences l = []) : evmOccurrences (l.drop k) = [] := by
  induction l generalizing k with
  | nil => simp [evmOccurrences]
  | cons c rest ih =>
    cases k with
    | zero => exact h
    | succ k =>
      rw [List.drop_succ_cons]
      rw [evmOccurrences] at h
      cases hm : evmMatchAt (c :: rest) with
      | some mm => rw [hm] at h; exact absurd h (by simp)
      | none =>
        rw [hm] at h
        exact ih k h

theorem evmFindAllAux_of_occ_single (fuel : Nat) (l : List Char) (a : List Char)
    (hfuel : l.length ≤ fuel) (h : evmOccurrences l = [a]) :
    evmFindAllAux fuel l = [a] := by
  induction fuel generalizing l with
  | zero =>
    rw [List.length_eq_zero.mp (Nat.le_zero.mp hfuel)] at h
    exact absurd h (by simp [evmOccurrences])
  | succ fuel ih =>
    cases l with
    | nil => exact absurd h (by simp [evmOccurrences])
    | cons c rest =>
      rw [evmOccurrences] at h
      cases hm : evmMatchAt (c :: rest) with
      | some mm =>
        rw [hm] at h
        have hma : mm = a := (List.cons.injEq _ _ _ _).mp h |>.1
        have hrest : evmOccurrences rest = [] := (List.cons.injEq _ _ _ _).mp h |>.2
        rw [evmFindAllAux, hm, hma]
        rw [evmFindAllAux_of_occ_nil fuel _ (evmOccurrences_drop_nil rest 41 hrest)]
      | none =>
        rw [hm] at h
        rw [evmFindAllAux, hm]
        exact ih rest (by simp at hfuel; omega) h

theorem evmFindAll_of_occ_single (l a : List Char) (h : evmOccurrences l = [a]) :
    evmFindAll l = [a] :=
  evmFindAllAux_of_occ_single l.length l a (Nat.le_refl _) h

/- ======================== explorer regex lemmas ======================== -/

theorem dropPre_eq (p : List Char) (l r : List Char) (h : dropPre p l = some r) :
    l = p ++ r := by
  induction p generalizing l with
  | nil => simpa [dropPre] using (Option.some.injEq _ _).mp h
  | cons x ps ih =>
    cases l with
    | nil => exact absurd h (by simp [dropPre])
    | cons c cs =>
      rw [dropPre] at h
      split at h
      · rename_i hcx
        rw [hcx, List.cons_append]
        exact congrArg _ (ih cs h)
      · exact absurd h (by simp)

theorem schemeDrop_eq (l r : List Char) (h : schemeDrop l = some r) :
    ∃ s, l = s ++ r := by
  rw [schemeDrop] at h
  cases hd : dropPre "s://".data l with
  | some r2 =>
    rw [hd] at h
    exact ⟨"s://".data, ((Option.some.injEq _ _).mp h) ▸ dropPre_eq _ _ _ hd⟩
  | none =>
    rw [hd] at h
    exact ⟨"://".data, dropPre_eq _ _ _ h⟩

theorem segAlt_eq (segs : List (List Char)) (l r : List Char)
    (h : segAlt segs l = some r) : ∃ s, l = s ++ r := by
  induction segs with
  | nil => exact absurd h (by simp [segAlt])
  | cons sg rest ih =>
    rw [segAlt] at h
    cases hd : dropPre (sg ++ ['/']) l with
    | some r2 =>
      rw [hd] at h
      exact ⟨sg ++ ['/'], ((Option.some.injEq _ _).mp h) ▸ dropPre_eq _ _ _ hd⟩
    | none =>
      rw [hd] at h
      exact ih h

theorem segPart_eq (p : ExplorerPat) (l r : List Char)
    (h : segPart p l = some r) : ∃ s, l = s ++ r := by
  rw [segPart] at h
  cases hs : p.segs with
  | nil =>
    rw [hs] at h
    exact ⟨[], by simpa using (Option.some.injEq _ _).mp h⟩
  | cons a as' =>
    rw [hs] at h
    exact segAlt_eq _ _ _ h

theorem expMatchAt_eq (p : ExplorerPat) (l rem : List Char)
    (h : expMatchAt p l = some rem) :
    ∃ s, l = s ++ rem ∧ containsSeq p.domain s = true := by
  rw [expMatchAt, Option.bind_eq_some] at h
  obtain ⟨l1, h1, h⟩ := h
  rw [Option.bind_eq_some] at h
  obtain ⟨l2, h2, h⟩ := h
  rw [Option.bind_eq_some] at h
  obtain ⟨l4, h3, h⟩ := h
  rw [Option.bind_eq_some] at h
  obtain ⟨l5, h4, h⟩ := h
  simp only at h
  split at h
  · have hrem : rem = l5.drop (match p.maxLen with
      | some mx => min (classRunLen p.cls l5) mx
      | none => classRunLen p.cls l5) := ((Option.some.injEq _ _).mp h).symm
    obtain ⟨s4, hs4⟩ := segPart_eq p l4 l5 h4
    obtain ⟨s2, hs2⟩ := schemeDrop_eq l1 l2 h2
    have hl : l = "http".data ++ l1 := dropPre_eq _ _ _ h1
    have hwww : ∃ sw, l2 = sw ++ wwwDrop l2 := by
      rw [wwwDrop]
      cases hw : dropPre "www.".data l2 with
      | some r2 => exact ⟨"www.".data, dropPre_eq _ _ _ hw⟩
      | none => exact ⟨[], rfl⟩
    obtain ⟨sw, hsw⟩ := hwww
    have hdom : wwwDrop l2 = (p.domain ++ ['/']) ++ l4 := dropPre_eq _ _ _ h3
    set m := (match p.maxLen with
      | some mx => min (classRunLen p.cls l5) mx
      | none => classRunLen p.cls l5) with hm
    have hl5 : l5 = l5.take m ++ rem := by
      rw [hrem]; exact (List.take_append_drop m l5).symm
    refine ⟨"http".data ++ s2 ++ sw ++ (p.domain ++ ['/']) ++ s4 ++ l5.take m,
      ?_, ?_⟩
    · rw [hl, hs2, hsw, hdom, hs4]
      conv_lhs => rw [hl5]
      simp [List.append_assoc]
    · rw [containsSeq_iff]
      exact ⟨"http".data ++ s2 ++ sw, ['/'] ++ s4 ++ l5.take m, by
        simp [List.append_assoc]⟩
  · exact absurd h (by simp)

theorem expFindAllAux_domain (p : ExplorerPat) (fuel : Nat) (l m : List Char)
    (h : m ∈ expFindAllAux p fuel l) : containsSeq p.domain m = true := by
  induction fuel generalizing l with
  | zero => simp [expFindAllAux] at h
  | succ fuel ih =>
    cases l with
    | nil => simp [expFindAllAux] at h
    | cons c rest =>
      rw [expFindAllAux] at h
      cases hm : expMatchAt p (c :: rest) with
      | some rem =>
        rw [hm] at h
        rcases List.mem_cons.mp h with rfl | h2
        · obtain ⟨s, hsl, hsd⟩ := expMatchAt_eq p _ rem hm
          have hlen : (c :: rest).length - rem.length = s.length := by
            rw [hsl, List.length_append]; omega
          rw [hlen, hsl, List.take_left]
          exact hsd
        · exact ih _ h2
      | none =>
        rw [hm] at h
        exact ih rest h

theorem explorerFinds_domain (html : String) (m : List Char)
    (h : m ∈ explorerFinds html) :
    ∃ p ∈ EXPLORER_PATTERNS, containsSeq p.domain m = true := by
  rw [explorerFinds, List.mem_flatten] at h
  obtain ⟨l2, hl2, hm⟩ := h
  obtain ⟨p, hp, rfl⟩ := List.mem_map.mp hl2
  exact ⟨p, hp, expFindAllAux_domain p _ _ m hm⟩

/- ======================== tag lemmas ======================== -/

theorem tagChainOf_ne_evm (s : String)
    (h : (containsSub (pyLower s) "etherscan" || containsSub (pyLower s) "bscscan" ||
          containsSub (pyLower s) "basescan" || containsSub (pyLower s) "arbiscan" ||
          containsSub (pyLower s) "polygonscan" || containsSub (pyLower s) "solscan" ||
          containsSub (pyLower s) "tonviewer" || containsSub (pyLower s) "tonscan" ||
          containsSub (pyLower s) "suiscan" ||
          containsSub (pyLower s) "explorer.sui.io") = true) :
    tagChainOf s ≠ "EVM" := by
  rw [tagChainOf]
  split_ifs with h1 h2 h3 h4 h5 h6 h7 h8 h9 <;> try decide
  simp only [Bool.or_eq_true] at h h8 h9
  rcases h with ((((((((hx | hx) | hx) | hx) | hx) | hx) | hx) | hx) | hx) | hx
  · exact absurd hx h1
  · exact absurd hx h2
  · exact absurd hx h3
  · exact absurd hx h4
  · exact absurd hx h5
  · exact absurd hx h7
  · exact absurd (Or.inl hx) h8
  · exact absurd (Or.inr hx) h8
  · exact absurd (Or.inl hx) h9
  · exact absurd (Or.inr hx) h9

theorem tagChainOf_evm (s : String)
    (h : ∀ c ∈ (pyLower s).data, hexishChar c = true) :
    tagChainOf s = "EVM" := by
  have hfalse : ∀ (n : List Char) (c : Char), c ∈ n → hexishChar c = false →
      containsSeq n (pyLower s).data = false := by
    intro n c hc hcp
    exact containsSeq_eq_false hexishChar n _ c hc hcp h
  rw [tagChainOf]
  rw [containsSub, containsSub, containsSub, containsSub, containsSub,
    containsSub, containsSub, containsSub, containsSub, containsSub, containsSub]
  rw [hfalse "etherscan".data 't' (by decide) (by decide),
    hfalse "bscscan".data 's' (by decide) (by decide),
    hfalse "basescan".data 's' (by decide) (by decide),
    hfalse "arbiscan".data 'r' (by decide) (by decide),
    hfalse "polygonscan".data 'p' (by decide) (by decide),
    hfalse "optimistic.etherscan".data 't' (by decide) (by decide),
    hfalse "solscan".data 's' (by decide) (by decide),
    hfalse "tonviewer".data 't' (by decide) (by decide),
    hfalse "tonscan".data 't' (by decide) (by decide),
    hfalse "suiscan".data 's' (by decide) (by decide),
    hfalse "explorer.sui.io".data 'p' (by decide) (by decide)]
  rfl

theorem lowChar_hexish (c : Char) (hc : isHexChar c = true) :
    hexishChar (lowChar c) = true := by
  rw [isHexChar] at hc
  simp only [List.mem_cons, List.not_mem_nil, or_false, decide_eq_true_eq] at hc
  rcases hc with rfl | rfl | rfl | rfl | rfl | rfl | rfl | rfl | rfl | rfl | rfl |
    rfl | rfl | rfl | rfl | rfl | rfl | rfl | rfl | rfl | rfl | rfl <;> decide

theorem addr_lower_hexish (ds : List Char) (hall : ds.all isHexChar = true) :
    ∀ c ∈ (pyLower (strOf ('0' :: 'x' :: ds))).data, hexishChar c = true := by
  intro c hc
  have hdata : (pyLower (strOf ('0' :: 'x' :: ds))).data
      = lowChar '0' :: lowChar 'x' :: ds.map lowChar := rfl
  rw [hdata] at hc
  rcases List.mem_cons.mp hc with rfl | hc
  · decide
  rcases List.mem_cons.mp hc with rfl | hc
  · decide
  obtain ⟨d, hd, rfl⟩ := List.mem_map.mp hc
  exact lowChar_hexish d (List.all_eq_true.mp hall d hd)

/- ======================== orchestrator lemmas ======================== -/

theorem mem_addSeen (code x : String) (seen : List String) :
    x ∈ addSeen code seen ↔ x = code ∨ x ∈ seen := by
  rw [addSeen]
  split
  · rename_i hmem
    constructor
    · exact fun hx => Or.inr hx
    · intro hx
      rcases hx with rfl | hx
      · exact hmem
      · exact hx
  · exact List.mem_cons

theorem loop_seen_mono (w : World) (arts : List Article) (seen : List String)
    (sent : Nat) (x : String) (hx : x ∈ seen) :
    x ∈ (processLoop w arts seen sent).seen := by
  induction arts generalizing seen sent with
  | nil => simpa [processLoop] using hx
  | cons it rest ih =>
    by_cases h1 : pickCode it = ""
    · simp only [processLoop, if_pos h1]
      exact ih seen sent hx
    · by_cases h2 : pickCode it ∈ seen
      · simp only [processLoop, if_neg h1, if_pos h2]
        exact ih seen sent hx
      · rcases hd : fetch_article_detail w (pickCode it) with e | d
        · simp only [processLoop, if_neg h1, if_neg h2, hd]
          exact hx
        · by_cases h3 : looks_like_alpha_listing (articleTitle it)
              (w.getText (d.content.getD "")) = true
          · rcases hn : w.notifySend (buildMsg w it d) with e | u
            · simp only [processLoop, if_neg h1, if_neg h2, hd, h3, if_true, hn]
              exact hx
            · simp only [processLoop, if_neg h1, if_neg h2, hd, h3, if_true, hn]
              exact ih _ _ ((mem_addSeen _ x seen).mpr (Or.inr hx))
          · rw [Bool.not_eq_true] at h3
            simp only [processLoop, if_neg h1, if_neg h2, hd, h3, Bool.false_eq_true, if_false]
            exact ih seen sent hx

theorem loop_notify_in_seen (w : World) (arts : List Article) (seen : List String)
    (sent : Nat) (id : String)
    (h : Event.notify id true ∈ (processLoop w arts seen sent).log) :
    id ∈ (processLoop w arts seen sent).seen := by
  induction arts generalizing seen sent with
  | nil => simp [processLoop] at h
  | cons it rest ih =>
    by_cases h1 : pickCode it = ""
    · simp only [processLoop, if_pos h1] at h ⊢
      exact ih seen sent h
    · by_cases h2 : pickCode it ∈ seen
      · simp only [processLoop, if_neg h1, if_pos h2] at h ⊢
        exact ih seen sent h
      · rcases hd : fetch_article_detail w (pickCode it) with e | d
        · simp only [processLoop, if_neg h1, if_neg h2, hd] at h
          simp at h
        · by_cases h3 : looks_like_alpha_listing (articleTitle it)
              (w.getText (d.content.getD "")) = true
          · rcases hn : w.notifySend (buildMsg w it d) with e | u
            · simp only [processLoop, if_neg h1, if_neg h2, hd, h3, if_true, hn] at h
              simp at h
            · simp only [processLoop, if_neg h1, if_neg h2, hd, h3, if_true, hn] at h ⊢
              simp only [List.mem_cons] at h
              rcases h with h | h | h
              · exact absurd h (by simp)
              · have hid : id = pickCode it := ((Event.notify.injEq _ _ _ _).mp h).1
                exact loop_seen_mono w rest _ _ id
                  ((mem_addSeen _ id seen).mpr (Or.inl hid))
              · exact ih _ _ h
          · rw [Bool.not_eq_true] at h3
            simp only [processLoop, if_neg h1, if_neg h2, hd, h3, Bool.false_eq_true, if_false] at h ⊢
            simp only [List.mem_cons] at h
            rcases h with h | h
            · exact absurd h (by simp)
            · exact ih seen sent h

theorem loop_skip_of_seen (w : World) (arts : List Article) (seen : List String)
    (sent : Nat) (id : String) (hid : id ∈ seen) :
    (∀ b, Event.notify id b ∉ (processLoop w arts seen sent).log) ∧
    Event.fetchDetail id ∉ (processLoop w arts seen sent).log := by
  induction arts generalizing seen sent with
  | nil => simp [processLoop]
  | cons it rest ih =>
    by_cases h1 : pickCode it = ""
    · simp only [processLoop, if_pos h1]
      exact ih seen sent hid
    · by_cases h2 : pickCode it ∈ seen
      · simp only [processLoop, if_neg h1, if_pos h2]
        exact ih seen sent hid
      · have hne : pickCode it ≠ id := fun he => h2 (he ▸ hid)
        rcases hd : fetch_article_detail w (pickCode it) with e | d
        · simp only [processLoop, if_neg h1, if_neg h2, hd]
          constructor
          · intro b hb
            simp at hb
          · intro hb
            simp only [List.mem_cons, List.not_mem_nil, or_false] at hb
            exact hne ((Event.fetchDetail.injEq _ _).mp hb).symm
        · by_cases h3 : looks_like_alpha_listing (articleTitle it)
              (w.getText (d.content.getD "")) = true
          · rcases hn : w.notifySend (buildMsg w it d) with e | u
            · simp only [processLoop, if_neg h1, if_neg h2, hd, h3, if_true, hn]
              constructor
              · intro b hb
                simp only [List.mem_cons, List.not_mem_nil, or_false] at hb
                rcases hb with hb | hb
                · exact (by simp at hb : False)
                · exact hne ((Event.notify.injEq _ _ _ _).mp hb).1.symm
              · intro hb
                simp only [List.mem_cons, List.not_mem_nil, or_false] at hb
                rcases hb with hb | hb
                · exact hne ((Event.fetchDetail.injEq _ _).mp hb).symm
                · exact (by simp at hb : False)
            · have ihr := ih (addSeen (pickCode it) seen) (sent + 1)
                ((mem_addSeen _ id seen).mpr (Or.inr hid))
              simp only [processLoop, if_neg h1, if_neg h2, hd, h3, if_true, hn]
              constructor
              · intro b hb
                simp only [List.mem_cons] at hb
                rcases hb with hb | hb | hb
                · exact (by simp at hb : False)
                · exact hne ((Event.notify.injEq _ _ _ _).mp hb).1.symm
                · exact ihr.1 b hb
              · intro hb
                simp only [List.mem_cons] at hb
                rcases hb with hb | hb | hb
                · exact hne ((Event.fetchDetail.injEq _ _).mp hb).symm
                · exact (by simp at hb : False)
                · exact ihr.2 hb
          · rw [Bool.not_eq_true] at h3
            have ihr := ih seen sent hid
            simp only [processLoop, if_neg h1, if_neg h2, hd, h3, Bool.false_eq_true, if_false]
            constructor
            · intro b hb
              simp only [List.mem_cons] at hb
              rcases hb with hb | hb
              · exact (by simp at hb : False)
              · exact ihr.1 b hb
            · intro hb
              simp only [List.mem_cons] at hb
              rcases hb with hb | hb
              · exact hne ((Event.fetchDetail.injEq _ _).mp hb).symm
              · exact ihr.2 hb

theorem loop_notify_count (w : World) (arts : List Article) (seen : List String)
    (sent : Nat) (id : String) :
    notifyCount id (processLoop w arts seen sent).log ≤ 1 := by
  induction arts generalizing seen sent with
  | nil => simp [processLoop, notifyCount]
  | cons it rest ih =>
    by_cases h1 : pickCode it = ""
    · simp only [processLoop, if_pos h1]
      exact ih seen sent
    · by_cases h2 : pickCode it ∈ seen
      · simp only [processLoop, if_neg h1, if_pos h2]
        exact ih seen sent
      · rcases hd : fetch_article_detail w (pickCode it) with e | d
        · simp only [processLoop, if_neg h1, if_neg h2, hd]
          simp [notifyCount]
        · by_cases h3 : looks_like_alpha_listing (articleTitle it)
              (w.getText (d.content.getD "")) = true
          · rcases hn : w.notifySend (buildMsg w it d) with e | u
            · simp only [processLoop, if_neg h1, if_neg h2, hd, h3, if_true, hn]
              simp only [notifyCount, List.countP_cons, List.countP_nil]
              split <;> simp
            · simp only [processLoop, if_neg h1, if_neg h2, hd, h3, if_true, hn]
              simp only [notifyCount, List.countP_cons, List.countP_nil] at ih ⊢
              by_cases hcid : pickCode it = id
              · have hin : id ∈ addSeen (pickCode it) seen :=
                  (mem_addSeen _ id seen).mpr (Or.inl hcid.symm)
                have hskip := loop_skip_of_seen w rest (addSeen (pickCode it) seen)
                  (sent + 1) id hin
                have hzero : List.countP (fun e =>
                    match e with
                    | .notify c _ => decide (c = id)
                    | _ => false)
                    (processLoop w rest (addSeen (pickCode it) seen) (sent + 1)).log
                    = 0 := by
                  rw [List.countP_eq_zero]
                  intro e he
                  cases e with
                  | fetchDetail c => simp
                  | notify c b =>
                    simp only [decide_eq_true_eq]
                    intro hcd
                    exact hskip.1 b (hcd ▸ he)
                rw [hzero]
                simp [hcid]
              · have : (decide (pickCode it = id)) = false := by
                  simp [hcid]
                simp [this]
                exact ih _ _
          · rw [Bool.not_eq_true] at h3
            simp only [processLoop, if_neg h1, if_neg h2, hd, h3,
              Bool.false_eq_true, if_false]
            simp only [notifyCount, List.countP_cons, List.countP_nil] at ih ⊢
            simpa using ih seen sent

theorem loop_notify_fail (w : World) (arts : List Article) (seen : List String)
    (sent : Nat) (id : String)
    (h : Event.notify id false ∈ (processLoop w arts seen sent).log) :
    (∃ e, (processLoop w arts seen sent).res = .error e) ∧
    id ∉ (processLoop w arts seen sent).seen := by
  induction arts generalizing seen sent with
  | nil => simp [processLoop] at h
  | cons it rest ih =>
    by_cases h1 : pickCode it = ""
    · simp only [processLoop, if_pos h1] at h ⊢
      exact ih seen sent h
    · by_cases h2 : pickCode it ∈ seen
      · simp only [processLoop, if_neg h1, if_pos h2] at h ⊢
        exact ih seen sent h
      · rcases hd : fetch_article_detail w (pickCode it) with e | d
        · simp only [processLoop, if_neg h1, if_neg h2, hd] at h
          simp at h
        · by_cases h3 : looks_like_alpha_listing (articleTitle it)
              (w.getText (d.content.getD "")) = true
          · rcases hn : w.notifySend (buildMsg w it d) with e | u
            · simp only [processLoop, if_neg h1, if_neg h2, hd, h3, if_true, hn] at h ⊢
              simp only [List.mem_cons, List.not_mem_nil, or_false] at h
              rcases h with h | h
              · exact absurd h (by simp)
              · have hid : id = pickCode it := ((Event.notify.injEq _ _ _ _).mp h).1
                exact ⟨⟨e, rfl⟩, fun hmem => h2 (hid ▸ hmem)⟩
            · simp only [processLoop, if_neg h1, if_neg h2, hd, h3, if_true, hn] at h ⊢
              simp only [List.mem_cons] at h
              rcases h with h | h | h
              · exact absurd h (by simp)
              · exact absurd ((Event.notify.injEq _ _ _ _).mp h).2 (by simp)
              · exact ih _ _ h
          · rw [Bool.not_eq_true] at h3
            simp only [processLoop, if_neg h1, if_neg h2, hd, h3,
              Bool.false_eq_true, if_false] at h ⊢
            simp only [List.mem_cons] at h
            rcases h with h | h
            · exact absurd h (by simp)
            · exact ih seen sent h

/- ======================== claim C1 ======================== -/

/-- C1: at most one notification per article id across repeated cycles on
static input.  If the adapter world is unchanged across two consecutive
cycles and the first cycle's notification for `id` succeeds, then exactly
one notify call is made in total for `id` over both cycles, and the second
cycle issues no detail fetch for `id` (it is skipped by the seen-set
membership test). -/
theorem c1_at_most_one_notification (w : World) (seen0 : List String) (id : String)
    (h : Event.notify id true ∈ (process_once w seen0).log) :
    notifyCount id ((process_once w seen0).log ++
      (process_once w (process_once w seen0).seen).log) = 1 ∧
    Event.fetchDetail id ∉ (process_once w (process_once w seen0).seen).log := by
  rcases hl : (fetch_listing_articles w.listNet 1).2 with e | arts
  · rw [process_once, hl] at h
    simp at h
  · simp only [process_once, hl] at h ⊢
    have hseen : id ∈ (processLoop w arts seen0 0).seen :=
      loop_notify_in_seen w arts seen0 0 id h
    have hskip := loop_skip_of_seen w arts (processLoop w arts seen0 0).seen 0 id hseen
    refine ⟨?_, hskip.2⟩
    rw [notifyCount, List.countP_append]
    have hc1le : List.countP (fun e =>
        match e with
        | .notify c _ => decide (c = id)
        | _ => false) (processLoop w arts seen0 0).log ≤ 1 := by
      have := loop_notify_count w arts seen0 0 id
      rwa [notifyCount] at this
    have hc1ge : 0 < List.countP (fun e =>
        match e with
        | .notify c _ => decide (c = id)
        | _ => false) (processLoop w arts seen0 0).log := by
      rw [List.countP_pos_iff]
      exact ⟨Event.notify id true, h, by simp⟩
    have hc2 : List.countP (fun e =>
        match e with
        | .notify c _ => decide (c = id)
        | _ => false) (processLoop w arts (processLoop w arts seen0 0).seen 0).log
        = 0 := by
      rw [List.countP_eq_zero]
      intro e he
      cases e with
      | fetchDetail c => simp
      | notify c b =>
        simp only [decide_eq_true_eq]
        intro hcd
        exact hskip.1 b (hcd ▸ he)
    omega

/-- Witness for C1 on a concrete world: the single candidate `A1` is
notified in the first cycle and the theorem applies. -/
theorem c1_witness :
    notifyCount "A1" ((process_once wGood []).log ++
      (process_once wGood (process_once wGood []).seen).log) = 1 ∧
    Event.fetchDetail "A1" ∉ (process_once wGood (process_once wGood []).seen).log :=
  c1_at_most_one_notification wGood [] "A1" (by decide)

/- ======================== claim C2 ======================== -/

/-- C2 counterexample: per-candidate failures are NOT contained.  In `wMid`,
candidate `A1` notifies successfully, then the detail fetch for `A2` raises;
the exception aborts the cycle (`A3` is never fetched or notified), and the
main-loop iteration persists nothing even though `A1` succeeded. -/
theorem c2_counterexample :
    (process_once wMid []).res = Except.error "detail down" ∧
    Event.notify "A1" true ∈ (process_once wMid []).log ∧
    Event.fetchDetail "A3" ∉ (process_once wMid []).log ∧
    Event.notify "A3" true ∉ (process_once wMid []).log ∧
    Event.notify "A3" false ∉ (process_once wMid []).log ∧
    (main_loop_step wMid []).2 = none := by
  decide

/-- C2 as amended: a detail-fetch or notify error is not caught inside the
cycle; it aborts `process_once` (the caller catches it, so the process
survives), the id of a candidate whose notify failed is not in the returned
seen set, and nothing is persisted for that cycle — the seen set is only
persisted after an error-free cycle that sent at least one alert. -/
theorem c2_failure_aborts_cycle (w : World) (seen0 : List String) (id : String)
    (h : Event.notify id false ∈ (process_once w seen0).log) :
    (∃ e, (process_once w seen0).res = Except.error e) ∧
    id ∉ (process_once w seen0).seen ∧
    (main_loop_step w seen0).2 = none := by
  rcases hl : (fetch_listing_articles w.listNet 1).2 with e | arts
  · rw [process_once, hl] at h
    simp at h
  · have hfail : (∃ e, (process_once w seen0).res = Except.error e) ∧
        id ∉ (process_once w seen0).seen := by
      simp only [process_once, hl] at h ⊢
      exact loop_notify_fail w arts seen0 0 id h
    refine ⟨hfail.1, hfail.2, ?_⟩
    obtain ⟨e2, he2⟩ := hfail.1
    rw [main_loop_step, he2]

/-- Witness for C2's amended theorem: in `wNotifyFail` the notify for `B1`
fails, the cycle errors, `B1` is not recorded and nothing is persisted. -/
theorem c2_witness :
    (∃ e, (process_once wNotifyFail []).res = Except.error e) ∧
    "B1" ∉ (process_once wNotifyFail []).seen ∧
    (main_loop_step wNotifyFail []).2 = none :=
  c2_failure_aborts_cycle wNotifyFail [] "B1" (by decide)

/- ======================== claim C7 ======================== -/

/-- C7: whenever `save_seen` is invoked at the end of a `main_loop`
iteration, the persisted snapshot contains every id of the set loaded at
cycle start and every id notified during the cycle — persisting never drops
a previously stored id. -/
theorem c7_persist_superset (w : World) (seen0 : List String) (snap : List String)
    (x : String)
    (hp : (main_loop_step w seen0).2 = some (FileState.arr snap))
    (hx : x ∈ seen0 ∨ Event.notify x true ∈ (process_once w seen0).log) :
    x ∈ snap := by
  rw [main_loop_step] at hp
  rcases hr : (process_once w seen0).res with e | sent
  · simp only [hr] at hp
    exact absurd hp (by simp)
  · simp only [hr] at hp
    by_cases hs : sent ≠ 0
    · rw [if_pos hs] at hp
      simp only [save_seen, Option.some.injEq, FileState.arr.injEq] at hp
      have hsnap : snap = pySortedSet (process_once w seen0).seen := hp.symm
      have hmem : x ∈ (process_once w seen0).seen := by
        rcases hx with hx | hx
        · rcases hl : (fetch_listing_articles w.listNet 1).2 with e | arts
          · simp only [process_once, hl]
            exact hx
          · simp only [process_once, hl]
            exact loop_seen_mono w arts seen0 0 x hx
        · rcases hl : (fetch_listing_articles w.listNet 1).2 with e | arts
          · rw [process_once, hl] at hx
            simp at hx
          · simp only [process_once, hl] at hx ⊢
            exact loop_notify_in_seen w arts seen0 0 x hx
      rw [hsnap, mem_pySortedSet]
      exact hmem
    · rw [if_neg hs] at hp
      exact absurd hp (by simp)

/-- Witness for C7: on `wGood` with a previously seen id `Z0`, the persisted
snapshot contains the freshly notified id `A1`. -/
theorem c7_witness : "A1" ∈ ["A1", "Z0"] :=
  c7_persist_superset wGood ["Z0"] ["A1", "Z0"] "A1" (by decide)
    (Or.inr (by decide))

/- ======================== claim C8 ======================== -/

/-- C8: seen-set round trip.  Persisting the result of a load leaves the
stored content unchanged as a set, and after `add(x)` followed by a persist,
a subsequent load contains `x`. -/
theorem c8_seen_roundtrip (l s : List String) (x : String) :
    (∀ y, y ∈ load_seen (save_seen (load_seen (FileState.arr l))) ↔
      y ∈ load_seen (FileState.arr l)) ∧
    x ∈ load_seen (save_seen (addSeen x s)) := by
  constructor
  · intro y
    simp only [load_seen, save_seen]
    rw [List.mem_dedup, mem_pySortedSet, List.mem_dedup]
  · simp only [load_seen, save_seen]
    rw [List.mem_dedup, mem_pySortedSet, mem_addSeen]
    exact Or.inl rfl

/- ======================== claims C9 and C3 ======================== -/

theorem looks_true_alpha (title body : String)
    (h : looks_like_alpha_listing title body = true) :
    containsSub (pyLower (title ++ " " ++ body)) "binance alpha" = true := by
  simp only [looks_like_alpha_listing] at h
  by_cases h1 : containsSub (pyLower (title ++ " " ++ body))
      "will be available on binance alpha" = true
  · exact containsSub_of_seq _ _ _ h1 (by decide)
  · rw [Bool.not_eq_true] at h1
    simp only [h1, Bool.false_eq_true, if_false] at h
    by_cases h2 : (containsSub (pyLower (title ++ " " ++ body)) "binance alpha" &&
        (["list", "listing", "launch", "trading"].any
          (fun k => containsSub (pyLower (title ++ " " ++ body)) k))) = true
    · exact (Bool.and_eq_true _ _).mp h2 |>.1
    · rw [Bool.not_eq_true] at h2
      simp only [h2, Bool.false_eq_true, if_false] at h

/-- C9: the classifier answers true only when the lowercased concatenation
of the title and the body text contains the substring "binance alpha". -/
theorem c9_requires_binance_alpha (title body : String)
    (h : looks_like_alpha_listing title body = true) :
    containsSub (pyLower (title ++ " " ++ body)) "binance alpha" = true :=
  looks_true_alpha title body h

/-- Witness for C9 at a concrete classified-true input. -/
theorem c9_witness :
    containsSub (pyLower ("X" ++ " " ++ "Will Be Available on Binance Alpha"))
      "binance alpha" = true :=
  c9_requires_binance_alpha "X" "Will Be Available on Binance Alpha" (by decide)

/-- C3 counterexample: the input "Binance Will List AlphaCoin" contains the
phrase "will list" (case-insensitively) and none of the spec's noise
keywords, yet the classifier answers false — refuting the claim that any
noise-free input containing "will list" is classified true. -/
theorem c3_counterexample :
    containsSub (pyLower ("Binance Will List AlphaCoin" ++ " " ++ ""))
      "will list" = true ∧
    (specNoiseKeywords.all (fun k =>
      !(containsSub (pyLower ("Binance Will List AlphaCoin" ++ " " ++ "")) k)))
      = true ∧
    looks_like_alpha_listing "Binance Will List AlphaCoin" "" = false := by
  decide

/-- C3 as amended: inputs containing none of the source's keywords (the
phrase "will be available on binance alpha" and the words "list", "launch",
"trading"; "listing" is subsumed by "list") are classified false; an input
containing "will list" is classified true if and only if it also contains
"binance alpha".  There is no noise filter: noise keywords play no role. -/
theorem c3_classifier_amended (title body : String) :
    ((∀ k ∈ ["will be available on binance alpha", "list", "launch", "trading"],
        containsSub (pyLower (title ++ " " ++ body)) k = false) →
      looks_like_alpha_listing title body = false) ∧
    (containsSub (pyLower (title ++ " " ++ body)) "will list" = true →
      (looks_like_alpha_listing title body = true ↔
        containsSub (pyLower (title ++ " " ++ body)) "binance alpha" = true)) := by
  constructor
  · intro hk
    have hphrase := hk "will be available on binance alpha" (by simp)
    have hlist := hk "list" (by simp)
    have hlaunch := hk "launch" (by simp)
    have htrading := hk "trading" (by simp)
    have hlisting : containsSub (pyLower (title ++ " " ++ body)) "listing" = false := by
      by_contra hcon
      rw [Bool.not_eq_false] at hcon
      have := containsSub_of_seq _ "list" "listing" hcon (by decide)
      rw [hlist] at this
      exact Bool.false_ne_true this
    simp only [looks_like_alpha_listing, hphrase, Bool.false_eq_true, if_false,
      List.any_cons, List.any_nil, hlist, hlisting, hlaunch, htrading,
      Bool.or_false, Bool.and_false]
  · intro hw
    constructor
    · exact looks_true_alpha title body
    · intro hba
      have hlist : containsSub (pyLower (title ++ " " ++ body)) "list" = true :=
        containsSub_of_seq _ "list" "will list" hw (by decide)
      simp only [looks_like_alpha_listing]
      by_cases h1 : containsSub (pyLower (title ++ " " ++ body))
          "will be available on binance alpha" = true
      · simp [h1]
      · rw [Bool.not_eq_true] at h1
        simp [h1, hba, hlist]

/-- Witness for C3's amended theorem: a keyword-free input is rejected, and
an input with "will list", "binance alpha" and several noise words is
accepted (noise keywords do not matter). -/
theorem c3_witness :
    looks_like_alpha_listing "Zebra Crossing Notice" "" = false ∧
    looks_like_alpha_listing
      "Will List Foo on Binance Alpha - Promotion Fee Update" "" = true :=
  ⟨(c3_classifier_amended "Zebra Crossing Notice" "").1 (by decide),
   ((c3_classifier_amended
      "Will List Foo on Binance Alpha - Promotion Fee Update" "").2
        (by decide)).mpr (by decide)⟩

/- ======================== claim C5 ======================== -/

/-- C5 counterexample: the listing call does not try multiple request-shape
variants.  Under `oneShapeNet` — a transport that rejects exactly the one
shape the source builds and would accept any other shape — the call fails,
and its request trace has length one; so "the call fails only when every
variant of an ordered list of request shapes errors" is false of the
source. -/
theorem c5_counterexample :
    (fetch_listing_articles oneShapeNet 1).2 = Except.error "blocked" ∧
    oneShapeNet ⟨CATALOG_ID, 1, 50, 1⟩ = Except.ok ⟨some ⟨some []⟩⟩ ∧
    (fetch_listing_articles oneShapeNet 1).1.length = 1 := by
  decide

/-- C5 as amended: the structured-API listing call issues exactly one
request, with the single fixed shape `catalogId = 48, pageNo, pageSize = 30,
type = 1`; a non-error response is accepted as is — in particular a
successful response with zero articles yields `[]` and is not an error — and
the call fails exactly when that single request raises a transport error. -/
theorem c5_single_request (net : ListParams → Except String ListResp) (pageNo : Nat) :
    (fetch_listing_articles net pageNo).1 = [⟨CATALOG_ID, pageNo, PAGE_SIZE, 1⟩] ∧
    (∀ r, net ⟨CATALOG_ID, pageNo, PAGE_SIZE, 1⟩ = Except.ok r →
      (fetch_listing_articles net pageNo).2 = Except.ok (articlesOf r)) ∧
    (∀ e, net ⟨CATALOG_ID, pageNo, PAGE_SIZE, 1⟩ = Except.error e →
      (fetch_listing_articles net pageNo).2 = Except.error e) ∧
    (net ⟨CATALOG_ID, pageNo, PAGE_SIZE, 1⟩ = Except.ok ⟨some ⟨some []⟩⟩ →
      (fetch_listing_articles net pageNo).2 = Except.ok []) := by
  refine ⟨rfl, ?_, ?_, ?_⟩
  · intro r hr
    simp only [fetch_listing_articles, hr]
    rfl
  · intro e he
    simp only [fetch_listing_articles, he]
    rfl
  · intro hr
    simp only [fetch_listing_articles, hr]
    rfl

/-- Witness for C5's amended theorem on the always-empty transport. -/
theorem c5_witness :
    (fetch_listing_articles emptyOkNet 1).1 = [⟨CATALOG_ID, 1, PAGE_SIZE, 1⟩] ∧
    (fetch_listing_articles emptyOkNet 1).2 = Except.ok [] :=
  ⟨(c5_single_request emptyOkNet 1).1, (c5_single_request emptyOkNet 1).2.2.2 rfl⟩

/- ======================== claim C4 ======================== -/

/-- C4: a text containing exactly one well-formed `0x`+40-hex address (the
occurrence list of `EVM_ADDR_RE` is a singleton) and no explorer URL
produces exactly that address in the contract output, tagged "EVM" — it is
never dropped. -/
theorem c4_single_bare_address (anchors : List String) (html : String)
    (addr : List Char)
    (h1 : evmOccurrences html.data = [addr])
    (h2 : explorerFinds html = []) :
    (extract_handles_and_contracts anchors html).2 = ["EVM: " ++ strOf addr] := by
  have hfind : evmFindAll html.data = [addr] := evmFindAll_of_occ_single _ _ h1
  have hmem : addr ∈ evmOccurrences html.data := by
    rw [h1]
    exact List.mem_cons_self _ _
  obtain ⟨ds, hds, hlen, hhex⟩ := evmOccurrences_shape html.data addr hmem
  have htag : tagChainOf (strOf addr) = "EVM" := by
    rw [hds]
    exact tagChainOf_evm _ (addr_lower_hexish ds hhex)
  have hsort : pySortedSet [strOf addr] = [strOf addr] := by
    rw [pySortedSet, List.dedup_cons_of_not_mem (List.not_mem_nil _), List.dedup_nil]
    rfl
  simp only [extract_handles_and_contracts, h2, hfind, List.map_nil, List.map_cons,
    hsort]
  simp [tag, htag]
  intro hcon
  exact absurd rfl hcon

/-- Witness for C4 on a concrete text with one address and no explorer
URL. -/
theorem c4_witness :
    (extract_handles_and_contracts [] singleAddrHtml).2
      = ["EVM: " ++ strOf "0x00112233445566778899aAbBcCdDeEfF00112233".data] :=
  c4_single_bare_address [] singleAddrHtml
    "0x00112233445566778899aAbBcCdDeEfF00112233".data (by decide) (by decide)

/- ======================== claim C6 ======================== -/

/-- C6 counterexample: EVM addresses are NOT emitted in order of first
appearance.  In `orderHtml` address B appears strictly before address A
(`findall` returns them in that order), yet the extractor lists A first —
the output is lexicographically sorted instead. -/
theorem c6_counterexample :
    evmFindAll orderHtml.data = [evmAddrB.data, evmAddrA.data] ∧
    (extract_handles_and_contracts [] orderHtml).2
      = ["EVM: " ++ evmAddrA, "EVM: " ++ evmAddrB] ∧
    (extract_handles_and_contracts [] orderHtml).2
      ≠ ["EVM: " ++ evmAddrB, "EVM: " ++ evmAddrA] := by
  decide

/-- C6 as amended: when no explorer link matches, the contract output is the
first five of the deduplicated, lexicographically sorted `findall` matches,
each tagged; the sorted set is duplicate-free, pairwise `<=`-ordered, and
has exactly the members of the `findall` list. -/
theorem c6_sorted_dedup (anchors : List String) (html : String)
    (h : explorerFinds html = []) :
    (extract_handles_and_contracts anchors html).2
      = ((pySortedSet ((evmFindAll html.data).map strOf)).take 5).map tag ∧
    (pySortedSet ((evmFindAll html.data).map strOf)).Nodup ∧
    (pySortedSet ((evmFindAll html.data).map strOf)).Pairwise
      (fun a b => pyStrLe a b = true) ∧
    (∀ a, a ∈ pySortedSet ((evmFindAll html.data).map strOf) ↔
      a ∈ (evmFindAll html.data).map strOf) := by
  refine ⟨?_, nodup_pySortedSet _, sorted_pySortedSet _, fun a => mem_pySortedSet a _⟩
  by_cases he : pySortedSet ((evmFindAll html.data).map strOf) = []
  · simp [extract_handles_and_contracts, h, he]
    rfl
  · simp [extract_handles_and_contracts, h, he]
    intro hcon
    exact absurd rfl hcon

/-- Witness for C6's amended theorem on the two-address input. -/
theorem c6_witness :
    (extract_handles_and_contracts [] orderHtml).2
      = ((pySortedSet ((evmFindAll orderHtml.data).map strOf)).take 5).map tag ∧
    (pySortedSet ((evmFindAll orderHtml.data).map strOf)).Nodup ∧
    (pySortedSet ((evmFindAll orderHtml.data).map strOf)).Pairwise
      (fun a b => pyStrLe a b = true) ∧
    (∀ a, a ∈ pySortedSet ((evmFindAll orderHtml.data).map strOf) ↔
      a ∈ (evmFindAll orderHtml.data).map strOf) :=
  c6_sorted_dedup [] orderHtml (by decide)

/- ======================== claim C10 ======================== -/

theorem pat_match_not_evm (p : ExplorerPat) (hp : p ∈ EXPLORER_PATTERNS)
    (m : List Char) (hdom : containsSeq p.domain m = true) :
    tagChainOf (strOf m) ≠ "EVM" := by
  have key : ∀ w : List Char, containsSeq w p.domain = true →
      w.map lowChar = w → containsSeq w (pyLower (strOf m)).data = true := by
    intro w hwd hwl
    have h1 : containsSeq w m = true := by
      rw [containsSeq_iff] at hwd hdom ⊢
      exact hwd.trans hdom
    have h2 := containsSeq_map lowChar w m h1
    rw [hwl] at h2
    exact h2
  fin_cases hp
  · exact tagChainOf_ne_evm _ (by
      have hx := key "etherscan".data (by decide) (by decide)
      simp only [containsSub, hx, Bool.true_or, Bool.or_true])
  · exact tagChainOf_ne_evm _ (by
      have hx := key "bscscan".data (by decide) (by decide)
      simp only [containsSub, hx, Bool.true_or, Bool.or_true])
  · exact tagChainOf_ne_evm _ (by
      have hx := key "basescan".data (by decide) (by decide)
      simp only [containsSub, hx, Bool.true_or, Bool.or_true])
  · exact tagChainOf_ne_evm _ (by
      have hx := key "arbiscan".data (by decide) (by decide)
      simp only [containsSub, hx, Bool.true_or, Bool.or_true])
  · exact tagChainOf_ne_evm _ (by
      have hx := key "polygonscan".data (by decide) (by decide)
      simp only [containsSub, hx, Bool.true_or, Bool.or_true])
  · exact tagChainOf_ne_evm _ (by
      have hx := key "etherscan".data (by decide) (by decide)
      simp only [containsSub, hx, Bool.true_or, Bool.or_true])
  · exact tagChainOf_ne_evm _ (by
      have hx := key "solscan".data (by decide) (by decide)
      simp only [containsSub, hx, Bool.true_or, Bool.or_true])
  · exact tagChainOf_ne_evm _ (by
      have hx := key "tonviewer".data (by decide) (by decide)
      simp only [containsSub, hx, Bool.true_or, Bool.or_true])
  · exact tagChainOf_ne_evm _ (by
      have hx := key "tonscan".data (by decide) (by decide)
      simp only [containsSub, hx, Bool.true_or, Bool.or_true])
  · exact tagChainOf_ne_evm _ (by
      have hx := key "suiscan".data (by decide) (by decide)
      simp only [containsSub, hx, Bool.true_or, Bool.or_true])
  · exact tagChainOf_ne_evm _ (by
      have hx := key "explorer.sui.io".data (by decide) (by decide)
      simp only [containsSub, hx, Bool.true_or, Bool.or_true])

/-- C10: when at least one explorer URL pattern matches, the contract output
is exactly the tagged first eight of the sorted set of explorer matches — at
most eight entries, every one an explorer link whose chain tag is not the
bare-address fallback "EVM"; bare EVM addresses are emitted only when no
explorer link is found. -/
theorem c10_explorer_priority (anchors : List String) (html : String)
    (h : explorerFinds html ≠ []) :
    (extract_handles_and_contracts anchors html).2
      = ((pySortedSet ((explorerFinds html).map strOf)).take 8).map tag ∧
    (extract_handles_and_contracts anchors html).2.length ≤ 8 ∧
    (∀ c ∈ (extract_handles_and_contracts anchors html).2,
      ∃ m ∈ (explorerFinds html).map strOf, c = tag m ∧ tagChainOf m ≠ "EVM") := by
  have hEne : pySortedSet ((explorerFinds html).map strOf) ≠ [] := by
    intro hnil
    obtain ⟨m, hm⟩ := List.exists_mem_of_ne_nil _ h
    have hm2 : strOf m ∈ pySortedSet ((explorerFinds html).map strOf) :=
      (mem_pySortedSet _ _).mpr (List.mem_map_of_mem _ hm)
    rw [hnil] at hm2
    exact absurd hm2 (List.not_mem_nil _)
  have hcontr : (extract_handles_and_contracts anchors html).2
      = ((pySortedSet ((explorerFinds html).map strOf)).take 8).map tag := by
    have hne : ((pySortedSet ((explorerFinds html).map strOf)).take 8).map tag ≠ [] := by
      simp only [ne_eq, List.map_eq_nil_iff, List.take_eq_nil_iff]
      simp [hEne]
    simp only [extract_handles_and_contracts]
    simp [hne]
    intro hcon
    exact absurd hcon hEne
  refine ⟨hcontr, ?_, ?_⟩
  · rw [hcontr, List.length_map]
    exact List.length_take_le _ _
  · intro c hc
    rw [hcontr] at hc
    obtain ⟨m, hm, rfl⟩ := List.mem_map.mp hc
    have hm2 : m ∈ (explorerFinds html).map strOf :=
      (mem_pySortedSet _ _).mp (List.mem_of_mem_take hm)
    obtain ⟨m0, hm0, rfl⟩ := List.mem_map.mp hm2
    obtain ⟨p, hp, hdom⟩ := explorerFinds_domain html m0 hm0
    exact ⟨strOf m0, List.mem_map_of_mem _ hm0, rfl, pat_match_not_evm p hp m0 hdom⟩

/-- Witness for C10 on a text containing an etherscan link and a bare
address: the link wins and the bare address is not emitted. -/
theorem c10_witness :
    (extract_handles_and_contracts [] explorerHtml).2
      = ((pySortedSet ((explorerFinds explorerHtml).map strOf)).take 8).map tag ∧
    (extract_handles_and_contracts [] explorerHtml).2.length ≤ 8 ∧
    (∀ c ∈ (extract_handles_and_contracts [] explorerHtml).2,
      ∃ m ∈ (explorerFinds explorerHtml).map strOf,
        c = tag m ∧ tagChainOf m ≠ "EVM") :=
  c10_explorer_priority [] explorerHtml (by decide)
